import Mathlib

/-!
Verification of the e-commerce RBAC / order-placement core.

Shallow embedding of the JavaScript sources:
* `utils/rbac.js` (role table queries: `getRoleConfig`, `getRoleRank`,
  `hasPermission`, `hasAnyPermission`);
* `middleware/permissionMiddleware.js` (`checkPermission`);
* `controllers/userController.js` (`createUser`, `updateUser`);
* `controllers/orderController.js` (`createOrder`, `updateOrderStatus`);
* `controllers/productController.js` (`updateProduct`).

The role table `config/rolesConfig.js` is an object
`{roleName: {rank, permissions}}`; it is embedded as an association list and
all theorems are parametric in it.  JavaScript numbers standing for ranks,
stocks and quantities are embedded as `Int` (the routes validate them to be
integers); prices are embedded as `Rat`.  MongoDB collections are embedded as
lists of records keyed by an id string; `session.withTransaction` is embedded
by discarding the partially mutated working state whenever the transaction
body reports an error.
-/

namespace ECom

/-- One entry of `config/rolesConfig.js`: `{rank, permissions}`. -/
structure RoleConfig where
  rank : Int
  permissions : List String
deriving DecidableEq

/-- The role table `{roleName: {rank, permissions}}`, as an association list. -/
abbrev RoleTable := List (String × RoleConfig)

/-- From `utils/rbac.js` : `getRoleConfig = (role) => rolesHierarchy[role] || null`. -/
def getRoleConfig (table : RoleTable) (role : String) : Option RoleConfig :=
  match table.find? (fun p => p.1 == role) with
  | some p => some p.2
  | none => none

/-- From `utils/rbac.js` : `getRoleRank`: the looked-up rank, or 0 when the role is
absent from the table. -/
def getRoleRank (table : RoleTable) (role : String) : Int :=
  match getRoleConfig table role with
  | some config => config.rank
  | none => 0

/-- From `utils/rbac.js` : `hasPermission(role, permission)`. -/
def hasPermission (table : RoleTable) (role permission : String) : Bool :=
  match getRoleConfig table role with
  | none => false
  | some config =>
    if config.permissions.contains "all" then true
    else config.permissions.contains permission

/-- From `utils/rbac.js` : `hasAnyPermission(role, permissions)` via `Array.some`. -/
def hasAnyPermission (table : RoleTable) (role : String) (permissions : List String) : Bool :=
  permissions.any (fun permission => hasPermission table role permission)

/-- An authenticated principal `req.user` (id and role are what the
authorization code reads). -/
structure Actor where
  id : String
  role : String
deriving DecidableEq

/-- Verdict of the permission middleware: 401, 403 invalid role, 403 denied,
or pass-through to the handler. -/
inductive GuardResult where
  | notAuthenticated
  | invalidRole
  | denied
  | allow
deriving DecidableEq

/-- From `middleware/permissionMiddleware.js` : `checkPermission(...requiredPermissions)`
applied to a request carrying `user`. -/
def checkPermission (table : RoleTable) (requiredPermissions : List String) :
    Option Actor → GuardResult
  | none => .notAuthenticated
  | some u =>
    match getRoleConfig table u.role with
    | none => .invalidRole
    | some _ =>
      if hasAnyPermission table u.role requiredPermissions then .allow
      else .denied

/-- A concrete table used to instantiate parametric theorems. -/
def demoTable : RoleTable :=
  [("root", ⟨10, ["all"]⟩),
   ("admin", ⟨5, ["manage_users", "assign_roles", "manage_products", "manage_orders"]⟩),
   ("manager", ⟨3, ["manage_products", "manage_orders"]⟩),
   ("support", ⟨2, ["read_orders"]⟩),
   ("user", ⟨1, ["manage_own_profile", "place_orders"]⟩)]

/-- A stored user document (`models/User.js`), restricted to the fields the
controllers read or write. -/
structure UserRec where
  id : String
  name : String
  email : String
  password : String
  role : String
  updatedBy : Option String
deriving DecidableEq

/-- A `PUT /users/:id` request body; `validateUpdateUserBody` admits the keys
name, email, phone, address, role, password.  `none` means the key is absent. -/
structure UserPatch where
  name : Option String
  email : Option String
  phone : Option String
  address : Option String
  role : Option String
  password : Option String
deriving DecidableEq

/-- JavaScript truthiness of an optional string body field
(`if (req.body.role)`): present and non-empty. -/
def truthyField : Option String → Bool
  | none => false
  | some s => s ≠ ""

/-- Outcome of `userController.updateUser`, one constructor per early return. -/
inductive UpdateUserResult where
  | notAuthenticated
  | notFound
  | forbiddenLevel
  | forbiddenAssignRoles
  | invalidTargetRole
  | forbiddenOwnRole
  | forbiddenAssignAbove
  | ok (updated : UserRec)
deriving DecidableEq

/-- True for the outcomes that surface as HTTP 403 Forbidden. -/
def UpdateUserResult.isForbidden : UpdateUserResult → Bool
  | .forbiddenLevel => true
  | .forbiddenAssignRoles => true
  | .forbiddenOwnRole => true
  | .forbiddenAssignAbove => true
  | _ => false

/-- The `if (req.body.role)` block of `updateUser`: the chain of checks run
when the patch carries a (truthy) role value; `none` means fall through. -/
def roleChangeCheck (table : RoleTable) (meRole : String) (isOwner : Bool)
    (myLevel : Int) (r : String) : Option UpdateUserResult :=
  if hasPermission table meRole "assign_roles" = false then some .forbiddenAssignRoles
  else if getRoleRank table r = 0 then some .invalidTargetRole
  else if isOwner then some .forbiddenOwnRole
  else if myLevel ≤ getRoleRank table r ∧ hasPermission table meRole "all" = false then
    some .forbiddenAssignAbove
  else none

/-- The call `findByIdAndUpdate(targetUserId, req.body)`: apply every present body key
to the target document (`updatedBy` was set to the caller's id beforehand). -/
def applyUserPatch (u : UserRec) (body : UserPatch) (updaterId : String) : UserRec :=
  { id := u.id
    name := body.name.getD u.name
    email := body.email.getD u.email
    password := body.password.getD u.password
    role := body.role.getD u.role
    updatedBy := some updaterId }

/-- From `userController.updateUser(req, res)`: hierarchy-checked profile update
with controlled role assignment.  Returns the outcome and the users
collection afterwards. -/
def updateUser (table : RoleTable) (users : List UserRec) :
    Option UserRec → String → UserPatch → UpdateUserResult × List UserRec
  | none, _, _ => (.notAuthenticated, users)
  | some me, targetUserId, body =>
    let isOwner := me.id == targetUserId
    match users.find? (fun u => u.id == targetUserId) with
    | none => (.notFound, users)
    | some targetUser =>
      let myLevel := getRoleRank table me.role
      let targetLevel := getRoleRank table targetUser.role
      if isOwner = false ∧ myLevel ≤ targetLevel then (.forbiddenLevel, users)
      else
        let gate :=
          if truthyField body.role then
            roleChangeCheck table me.role isOwner myLevel (body.role.getD "")
          else none
        match gate with
        | some err => (err, users)
        | none =>
          let cleanBody :=
            if truthyField body.password then { body with password := none } else body
          let updated := applyUserPatch targetUser cleanBody me.id
          (.ok updated, users.map (fun u => if u.id == targetUserId then updated else u))

/-- A `POST /users` signup body; a `role` key, if supplied by the client, is
carried here but never read by the endpoint. -/
structure CreateUserBody where
  name : String
  email : String
  password : String
  role : Option String
deriving DecidableEq

/-- Outcome of `userController.createUser`. -/
inductive CreateUserResult where
  | emailExists
  | created (u : UserRec)
deriving DecidableEq

/-- From `userController.createUser(req, res)`: public signup; the stored role is
the constant "user" (`const role = 'user'`). -/
def createUser (users : List UserRec) (newId : String) (body : CreateUserBody) :
    CreateUserResult × List UserRec :=
  let role := "user"
  match users.find? (fun u => u.email == body.email) with
  | some _ => (.emailExists, users)
  | none =>
    let saved : UserRec :=
      { id := newId, name := body.name, email := body.email,
        password := body.password, role := role, updatedBy := none }
    (.created saved, users ++ [saved])

/-- A stored product document (`models/Product.js`), restricted to the fields
the controllers read or write. -/
structure Product where
  id : String
  price : Rat
  stock : Int
  createdBy : String
  updatedBy : String
deriving DecidableEq

/-- One element of the `products` array of a `POST /orders` body:
`{product, quantity}`. -/
structure ReqItem where
  product : String
  quantity : Int
deriving DecidableEq

/-- One stored order line: `{product, quantity, price}` where `price` is the
unit-price snapshot taken at order creation. -/
structure OrderItem where
  product : String
  quantity : Int
  price : Rat
deriving DecidableEq

/-- A stored order document.  The Order schema file is not in the sources;
its fields are exactly those the controllers write (`user, products,
totalAmount, shippingAddress, status`), with "pending" as the creation
status, the first of the five states the spec lists. -/
structure OrderRec where
  id : String
  user : String
  products : List OrderItem
  totalAmount : Rat
  shippingAddress : String
  status : String
deriving DecidableEq

/-- The persistent store the order/product controllers touch. -/
structure StoreState where
  products : List Product
  orders : List OrderRec
deriving DecidableEq

/-- Embedding of `Map.get` on a JavaScript `Map` kept as an insertion-ordered list. -/
def mapGet : List (String × Int) → String → Option Int
  | [], _ => none
  | (k, v) :: rest, key => if k == key then some v else mapGet rest key

/-- Embedding of `Map.set`: overwrite in place when the key exists, else append. -/
def mapSet : List (String × Int) → String → Int → List (String × Int)
  | [], key, v => [(key, v)]
  | (k, w) :: rest, key, v =>
    if k == key then (k, v) :: rest else (k, w) :: mapSet rest key v

/-- The merge loop of `createOrder`:
`set(key, (get(key) || 0) + item.quantity)` over the request items. -/
def mergeQtyAux : List (String × Int) → List ReqItem → List (String × Int)
  | m, [] => m
  | m, item :: rest =>
    mergeQtyAux (mapSet m item.product ((mapGet m item.product).getD 0 + item.quantity)) rest

/-- The map `requestedQtyByProduct`: request items merged by product id, duplicate
quantities summed. -/
def requestedQtyByProduct (products : List ReqItem) : List (String × Int) :=
  mergeQtyAux [] products

/-- Lookup `productMap.get(productId)` against a fetched snapshot. -/
def findProduct (ps : List Product) (pid : String) : Option Product :=
  ps.find? (fun p => p.id == pid)

/-- The stock of the product with the given id, if present. -/
def stockOf (ps : List Product) (pid : String) : Option Int :=
  (findProduct ps pid).map (fun p => p.stock)

/-- Total quantity the request asks for a given product id. -/
def sumQty (items : List ReqItem) (pid : String) : Int :=
  ((items.filter (fun item => item.product == pid)).map (fun item => item.quantity)).sum

/-- Typed failures thrown inside the `createOrder` transaction body
(`statusCode` 404 resp. 409). -/
inductive OrderErr where
  | notFound
  | conflict
deriving DecidableEq

/-- The per-product loop of `createOrder`: check existence against the
fetched snapshot, then `findOneAndUpdate({_id, stock ≥ qty}, {$inc
{stock: -qty}})` against the working state.  A thrown error aborts the
surrounding transaction, so the partially decremented working state is
discarded by the caller. -/
def decrementAll (snapshot : List Product) :
    List Product → List (String × Int) → Except OrderErr (List Product)
  | current, [] => .ok current
  | current, (productId, totalRequestedQty) :: rest =>
    match findProduct snapshot productId with
    | none => .error .notFound
    | some _ =>
      match current.find?
          (fun p => p.id == productId && decide (totalRequestedQty ≤ p.stock)) with
      | none => .error .conflict
      | some _ =>
        decrementAll snapshot
          (current.map (fun p =>
            if p.id == productId then { p with stock := p.stock - totalRequestedQty }
            else p)) rest

/-- The pricing loop of `createOrder`: per original request line, one order
line carrying the snapshot price, and the running `totalAmount`
(`totalAmount += product.price * item.quantity`). -/
def buildOrderLines (productMap : List Product) :
    List ReqItem → Option (List OrderItem × Rat)
  | [] => some ([], 0)
  | item :: rest =>
    match findProduct productMap item.product with
    | none => none
    | some product =>
      match buildOrderLines productMap rest with
      | none => none
      | some (lines, total) =>
        some (⟨item.product, item.quantity, product.price⟩ :: lines,
          product.price * (item.quantity : Rat) + total)

/-- Outcome of `orderController.createOrder` as seen by the client. -/
inductive PlaceOrderResult where
  | notFound
  | conflict
  | internalError
  | created (o : OrderRec)
deriving DecidableEq

/-- From `orderController.createOrder(req, res)`: the `session.withTransaction`
body (merge, fetch, conditional decrements, snapshot pricing, order insert);
on a thrown error the transaction aborts, so the returned state is the
caller's unchanged pre-state.  `internalError` marks the branch where the
pricing loop reads a product id missing from the snapshot (unreachable after
a successful decrement pass, where JavaScript would crash on `undefined`). -/
def createOrder (s : StoreState) (userId orderId : String) (items : List ReqItem)
    (shippingAddress : String) : PlaceOrderResult × StoreState :=
  match decrementAll s.products s.products (requestedQtyByProduct items) with
  | .error .notFound => (.notFound, s)
  | .error .conflict => (.conflict, s)
  | .ok products2 =>
    match buildOrderLines s.products items with
    | none => (.internalError, s)
    | some (orderProducts, totalAmount) =>
      let saved : OrderRec :=
        { id := orderId, user := userId, products := orderProducts,
          totalAmount := totalAmount, shippingAddress := shippingAddress,
          status := "pending" }
      (.created saved, { products := products2, orders := s.orders ++ [saved] })

/-- The list `validStatuses` of `orderController.updateOrderStatus`. -/
def validStatuses : List String :=
  ["pending", "processing", "shipped", "delivered", "cancelled"]

/-- Outcome of `orderController.updateOrderStatus`. -/
inductive StatusResult where
  | invalidStatus
  | forbiddenDelivery
  | notFound
  | updated (o : OrderRec)
deriving DecidableEq

/-- From `orderController.updateOrderStatus(req, res)`: status-only update with
the delivery-role restriction. -/
def updateOrderStatus (orders : List OrderRec) (userRole : String)
    (orderId status : String) : StatusResult × List OrderRec :=
  if validStatuses.contains status = false then (.invalidStatus, orders)
  else if userRole == "delivery" && status != "delivered" then
    (.forbiddenDelivery, orders)
  else
    match orders.find? (fun o => o.id == orderId) with
    | none => (.notFound, orders)
    | some o =>
      let updated := { o with status := status }
      (.updated updated, orders.map (fun w => if w.id == orderId then updated else w))

/-- A `PUT /products/:id` body, restricted to the fields the embedding
carries; `createdBy` is carried because the controller deletes it. -/
structure ProductPatch where
  price : Option Rat
  stock : Option Int
  createdBy : Option String
deriving DecidableEq

/-- Outcome of `productController.updateProduct`. -/
inductive UpdateProductResult where
  | notFound
  | forbidden
  | updated (p : Product)
deriving DecidableEq

/-- From `productController.updateProduct(req, res)`: owner-or-elevated update;
`createdBy` is stripped from the body and `updatedBy` set to the caller. -/
def updateProduct (table : RoleTable) (s : StoreState) (user : Actor)
    (productId : String) (body : ProductPatch) : UpdateProductResult × StoreState :=
  match s.products.find? (fun p => p.id == productId) with
  | none => (.notFound, s)
  | some product =>
    let isOwner := product.createdBy == user.id
    let hasSuperPower := hasPermission table user.role "manage_products"
    if isOwner = false ∧ hasSuperPower = false then (.forbidden, s)
    else
      let cleanBody : ProductPatch := { body with createdBy := none }
      let updated : Product :=
        { id := product.id
          price := cleanBody.price.getD product.price
          stock := cleanBody.stock.getD product.stock
          createdBy := product.createdBy
          updatedBy := user.id }
      (.updated updated,
        { s with products :=
            s.products.map (fun p => if p.id == productId then updated else p) })

/-- A patch with no keys at all, used to instantiate scenarios. -/
def demoPatchEmpty : UserPatch := ⟨none, none, none, none, none, none⟩

/-- A rank-3 caller in `demoTable`. -/
def demoManager : UserRec := ⟨"m1", "Mgr", "mgr@x", "pw", "manager", none⟩

/-- C5: `hasPermission(R,P)` is true iff R is present in the role table and
its permission set contains P or the wildcard "all"; an absent role gets no
permission at all and rank 0. -/
theorem hasPermission_spec (table : RoleTable) (role perm : String) :
    (hasPermission table role perm = true ↔
      ∃ c, getRoleConfig table role = some c ∧
        (c.permissions.contains perm = true ∨ c.permissions.contains "all" = true))
    ∧ (getRoleConfig table role = none →
        (∀ p : String, hasPermission table role p = false) ∧
          getRoleRank table role = 0) := by
  constructor
  · unfold hasPermission
    cases hcfg : getRoleConfig table role with
    | none =>
      simp
    | some c =>
      by_cases hall : c.permissions.contains "all" = true
      · simp [hall]
        tauto
      · simp [hall]
        tauto
  · intro hnone
    constructor
    · intro p
      unfold hasPermission
      rw [hnone]
    · unfold getRoleRank
      rw [hnone]

/-- Witness for C5 at a concrete absent role. -/
theorem hasPermission_spec_witness :
    (hasPermission demoTable "ghost" "manage_users" = false) ∧
      getRoleRank demoTable "ghost" = 0 :=
  ⟨((hasPermission_spec demoTable "ghost" "manage_users").2 (by decide)).1 "manage_users",
   ((hasPermission_spec demoTable "ghost" "manage_users").2 (by decide)).2⟩

/-- C6 fails as stated: a wildcard-holding actor with an empty
required-permissions list is denied, because `Array.some` on an empty list is
false; the guard does not special-case the wildcard. -/
theorem checkPermission_wildcard_empty_counterexample :
    checkPermission demoTable [] (some ⟨"u1", "root"⟩) = GuardResult.denied ∧
      checkPermission demoTable [] (some ⟨"u1", "root"⟩) ≠ GuardResult.allow := by
  constructor
  · decide
  · decide

/-- C6 (amended): a wildcard-holding actor is allowed for every NON-EMPTY
required-permissions list; with the empty list the guard denies. -/
theorem checkPermission_wildcard (table : RoleTable) (u : Actor)
    (perms : List String) (c : RoleConfig)
    (hc : getRoleConfig table u.role = some c)
    (hall : c.permissions.contains "all" = true)
    (hne : perms ≠ []) :
    checkPermission table perms (some u) = GuardResult.allow ∧
      checkPermission table [] (some u) = GuardResult.denied := by
  have hmem : "all" ∈ c.permissions := by simpa using hall
  have hperm : ∀ p : String, hasPermission table u.role p = true := by
    intro p
    unfold hasPermission
    rw [hc]
    simp [hmem]
  constructor
  · simp only [checkPermission]
    rw [hc]
    cases perms with
    | nil => exact absurd rfl hne
    | cons p rest =>
      have hany : hasAnyPermission table u.role (p :: rest) = true := by
        unfold hasAnyPermission
        simp [List.any_cons, hperm p]
      rw [hany]
      simp
  · simp only [checkPermission]
    rw [hc]
    have hany : hasAnyPermission table u.role [] = false := by
      unfold hasAnyPermission
      simp
    rw [hany]
    simp

/-- Witness for the amended C6 at the concrete wildcard role. -/
theorem checkPermission_wildcard_witness :
    checkPermission demoTable ["manage_users"] (some ⟨"u1", "root"⟩) = GuardResult.allow ∧
      checkPermission demoTable [] (some ⟨"u1", "root"⟩) = GuardResult.denied :=
  checkPermission_wildcard demoTable ⟨"u1", "root"⟩ ["manage_users"]
    ⟨10, ["all"]⟩ (by decide) (by decide) (by decide)

/-- Helper: when the caller is not the owner and its rank does not exceed the
target's, `updateUser` stops at the hierarchy gate. -/
theorem updateUser_rankGate_fires (table : RoleTable) (users : List UserRec)
    (me targetUser : UserRec) (targetUserId : String) (body : UserPatch)
    (hfind : users.find? (fun u => u.id == targetUserId) = some targetUser)
    (hb : (me.id == targetUserId) = false)
    (hle : getRoleRank table me.role ≤ getRoleRank table targetUser.role) :
    updateUser table users (some me) targetUserId body =
      (.forbiddenLevel, users) := by
  simp only [updateUser, hfind]
  simp [hb, hle]

/-- Helper: when the caller outranks the target and the patch carries no role
key, `updateUser` reaches the update and succeeds. -/
theorem updateUser_rankGate_passes (table : RoleTable) (users : List UserRec)
    (me targetUser : UserRec) (targetUserId : String) (body : UserPatch)
    (hfind : users.find? (fun u => u.id == targetUserId) = some targetUser)
    (hgt : getRoleRank table targetUser.role < getRoleRank table me.role)
    (hrole : body.role = none) :
    ∃ updated, (updateUser table users (some me) targetUserId body).1 =
      .ok updated := by
  simp only [updateUser, hfind]
  have hnot : ¬ ((me.id == targetUserId) = false ∧
      getRoleRank table me.role ≤ getRoleRank table targetUser.role) := by
    rintro ⟨-, hle⟩
    exact absurd hgt (not_lt.mpr hle)
  rw [if_neg hnot]
  simp [truthyField, hrole]

/-- C7: a non-self `updateUser` succeeds only when the caller's rank strictly
exceeds the target's (hence only when the hierarchy condition of the claim
holds); when the caller neither outranks the target nor holds the wildcard,
the call is Forbidden; in particular rank 3 against rank 3 is Forbidden and
rank 3 against rank 2 (plain profile patch) succeeds. -/
theorem updateUser_hierarchy (table : RoleTable) (users : List UserRec)
    (me targetUser : UserRec) (targetUserId : String) (body : UserPatch)
    (hfind : users.find? (fun u => u.id == targetUserId) = some targetUser)
    (hown : me.id ≠ targetUserId) :
    (∀ r us, updateUser table users (some me) targetUserId body = (.ok r, us) →
       getRoleRank table targetUser.role < getRoleRank table me.role ∨
         hasPermission table me.role "all" = true)
    ∧ (¬ (getRoleRank table targetUser.role < getRoleRank table me.role ∨
            hasPermission table me.role "all" = true) →
        updateUser table users (some me) targetUserId body = (.forbiddenLevel, users))
    ∧ (getRoleRank table me.role = 3 → getRoleRank table targetUser.role = 3 →
        updateUser table users (some me) targetUserId body = (.forbiddenLevel, users))
    ∧ (getRoleRank table me.role = 3 → getRoleRank table targetUser.role = 2 →
        body.role = none →
        ∃ updated, (updateUser table users (some me) targetUserId body).1 =
          .ok updated) := by
  have hb : (me.id == targetUserId) = false := by
    simpa using hown
  refine ⟨?_, ?_, ?_, ?_⟩
  · intro r us h
    by_cases hlt : getRoleRank table targetUser.role < getRoleRank table me.role
    · exact Or.inl hlt
    · have := updateUser_rankGate_fires table users me targetUser targetUserId body
        hfind hb (not_lt.mp hlt)
      rw [this] at h
      simp at h
  · intro hno
    have hle : getRoleRank table me.role ≤ getRoleRank table targetUser.role := by
      by_contra hc
      exact hno (Or.inl (not_le.mp hc))
    exact updateUser_rankGate_fires table users me targetUser targetUserId body hfind hb hle
  · intro hm ht
    exact updateUser_rankGate_fires table users me targetUser targetUserId body hfind hb
      (by rw [hm, ht])
  · intro hm ht hrole
    exact updateUser_rankGate_passes table users me targetUser targetUserId body hfind
      (by rw [hm, ht]; decide) hrole

/-- Witness for C7: rank 3 vs rank 3 is Forbidden, rank 3 vs rank 2 succeeds. -/
theorem updateUser_hierarchy_witness :
    updateUser demoTable [⟨"t1", "T1", "t1@x", "pw", "manager", none⟩]
        (some demoManager) "t1" demoPatchEmpty =
      (.forbiddenLevel, [⟨"t1", "T1", "t1@x", "pw", "manager", none⟩]) ∧
    ∃ updated, (updateUser demoTable [⟨"t2", "T2", "t2@x", "pw", "support", none⟩]
        (some demoManager) "t2" demoPatchEmpty).1 = .ok updated :=
  ⟨(updateUser_hierarchy demoTable [⟨"t1", "T1", "t1@x", "pw", "manager", none⟩]
      demoManager ⟨"t1", "T1", "t1@x", "pw", "manager", none⟩ "t1" demoPatchEmpty
      (by decide) (by decide)).2.2.1 (by decide) (by decide),
   (updateUser_hierarchy demoTable [⟨"t2", "T2", "t2@x", "pw", "support", none⟩]
      demoManager ⟨"t2", "T2", "t2@x", "pw", "support", none⟩ "t2" demoPatchEmpty
      (by decide) (by decide)).2.2.2 (by decide) (by decide) rfl⟩

/-- C8 fails as stated: a self role-change naming an unknown role returns
InvalidInput (HTTP 400), not Forbidden, even though the caller holds
"assign_roles". -/
theorem updateUser_self_role_counterexample :
    (updateUser demoTable [⟨"a1", "Adm", "a@x", "pw", "admin", none⟩]
        (some ⟨"a1", "Adm", "a@x", "pw", "admin", none⟩) "a1"
        ⟨none, none, none, none, some "ghost", none⟩).1 =
      UpdateUserResult.invalidTargetRole ∧
    UpdateUserResult.isForbidden
      (updateUser demoTable [⟨"a1", "Adm", "a@x", "pw", "admin", none⟩]
        (some ⟨"a1", "Adm", "a@x", "pw", "admin", none⟩) "a1"
        ⟨none, none, none, none, some "ghost", none⟩).1 = false := by
  constructor
  · decide
  · decide

/-- C8 (amended): a self role-change never succeeds and leaves the users
collection (hence the caller's role) unchanged; it is Forbidden whenever the
supplied role has a nonzero rank or the caller lacks "assign_roles", but when
the supplied role is unknown (rank 0) and the caller holds "assign_roles",
the result is InvalidInput. -/
theorem updateUser_self_role_change (table : RoleTable) (users : List UserRec)
    (me : UserRec) (body : UserPatch) (r : String)
    (hfind : users.find? (fun u => u.id == me.id) = some me)
    (hrole : body.role = some r) (hr : r ≠ "") :
    (updateUser table users (some me) me.id body).2 = users
    ∧ (∀ u, (updateUser table users (some me) me.id body).1 ≠ .ok u)
    ∧ (getRoleRank table r ≠ 0 ∨ hasPermission table me.role "assign_roles" = false →
        ((updateUser table users (some me) me.id body).1).isForbidden = true)
    ∧ (getRoleRank table r = 0 → hasPermission table me.role "assign_roles" = true →
        (updateUser table users (some me) me.id body).1 = .invalidTargetRole) := by
  have htr : truthyField (some r) = true := by
    simpa [truthyField] using hr
  have hsome : ∀ g, roleChangeCheck table me.role true (getRoleRank table me.role) r =
      some g → updateUser table users (some me) me.id body = (g, users) := by
    intro g hg
    simp only [updateUser, hfind]
    simp [hrole, htr, hg]
  by_cases hap : hasPermission table me.role "assign_roles" = false
  · have heq := hsome UpdateUserResult.forbiddenAssignRoles (by simp [roleChangeCheck, hap])
    exact ⟨by rw [heq], fun u => by rw [heq]; simp, fun _ => by rw [heq]; rfl,
      fun _ hap2 => by rw [hap2] at hap; simp at hap⟩
  · have hap' : hasPermission table me.role "assign_roles" = true := by
      simpa using hap
    by_cases hz : getRoleRank table r = 0
    · have heq := hsome UpdateUserResult.invalidTargetRole
        (by simp [roleChangeCheck, hap', hz])
      refine ⟨by rw [heq], fun u => by rw [heq]; simp, ?_, fun _ _ => by rw [heq]⟩
      rintro (hnz | hna)
      · exact absurd hz hnz
      · rw [hna] at hap'
        cases hap'
    · have heq := hsome UpdateUserResult.forbiddenOwnRole
        (by simp [roleChangeCheck, hap', hz])
      exact ⟨by rw [heq], fun u => by rw [heq]; simp,
        fun _ => by rw [heq]; rfl, fun hz2 _ => absurd hz2 hz⟩

/-- Witness for the amended C8: an admin holding "assign_roles" trying to set
its own role to "root" is Forbidden and the collection is unchanged. -/
theorem updateUser_self_role_change_witness :
    (updateUser demoTable [⟨"a1", "Adm", "a@x", "pw", "admin", none⟩]
        (some ⟨"a1", "Adm", "a@x", "pw", "admin", none⟩) "a1"
        ⟨none, none, none, none, some "root", none⟩).2 =
      [⟨"a1", "Adm", "a@x", "pw", "admin", none⟩] ∧
    ((updateUser demoTable [⟨"a1", "Adm", "a@x", "pw", "admin", none⟩]
        (some ⟨"a1", "Adm", "a@x", "pw", "admin", none⟩) "a1"
        ⟨none, none, none, none, some "root", none⟩).1).isForbidden = true :=
  ⟨(updateUser_self_role_change demoTable [⟨"a1", "Adm", "a@x", "pw", "admin", none⟩]
      ⟨"a1", "Adm", "a@x", "pw", "admin", none⟩
      ⟨none, none, none, none, some "root", none⟩ "root"
      (by decide) rfl (by decide)).1,
   (updateUser_self_role_change demoTable [⟨"a1", "Adm", "a@x", "pw", "admin", none⟩]
      ⟨"a1", "Adm", "a@x", "pw", "admin", none⟩
      ⟨none, none, none, none, some "root", none⟩ "root"
      (by decide) rfl (by decide)).2.2.1 (Or.inl (by decide))⟩

/-- C10: every account created through public signup has role "user",
whatever role value the request body carried. -/
theorem createUser_role (users : List UserRec) (newId : String)
    (body : CreateUserBody) (u : UserRec) (us : List UserRec)
    (h : createUser users newId body = (.created u, us)) :
    u.role = "user" ∧ us = users ++ [u] ∧
      ∀ v ∈ us, v ∈ users ∨ v.role = "user" := by
  unfold createUser at h
  cases hf : users.find? (fun w => w.email == body.email) with
  | some w =>
    rw [hf] at h
    simp at h
  | none =>
    rw [hf] at h
    simp only [Prod.mk.injEq, CreateUserResult.created.injEq] at h
    obtain ⟨hu, hus⟩ := h
    subst hu
    subst hus
    refine ⟨rfl, rfl, ?_⟩
    intro v hv
    rcases List.mem_append.mp hv with hv | hv
    · exact Or.inl hv
    · rcases List.mem_singleton.mp hv with rfl
      exact Or.inr rfl

/-- Witness for C10: a signup body asking for role "root" still yields a
"user" account. -/
theorem createUser_role_witness :
    (⟨"u9", "Nine", "nine@x", "pw", "user", none⟩ : UserRec).role = "user" ∧
      [(⟨"u9", "Nine", "nine@x", "pw", "user", none⟩ : UserRec)] =
        [] ++ [⟨"u9", "Nine", "nine@x", "pw", "user", none⟩] ∧
      ∀ v ∈ [(⟨"u9", "Nine", "nine@x", "pw", "user", none⟩ : UserRec)],
        v ∈ ([] : List UserRec) ∨ v.role = "user" :=
  createUser_role [] "u9" ⟨"Nine", "nine@x", "pw", some "root"⟩
    ⟨"u9", "Nine", "nine@x", "pw", "user", none⟩
    [⟨"u9", "Nine", "nine@x", "pw", "user", none⟩] (by decide)

/-- Reading a key after `mapSet` sees the new value exactly at that key. -/
theorem mapGet_mapSet (m : List (String × Int)) (k x : String) (v : Int) :
    mapGet (mapSet m k v) x = if k == x then some v else mapGet m x := by
  induction m with
  | nil =>
    by_cases h : (k == x) = true <;> simp [mapSet, mapGet, h]
  | cons hd tl ih =>
    obtain ⟨a, w⟩ := hd
    by_cases h1 : (a == k) = true
    · have ha : a = k := by simpa using h1
      subst ha
      by_cases h2 : (a == x) = true <;> simp [mapSet, mapGet, h2]
    · have h1' : (a == k) = false := by simpa using h1
      by_cases h2 : (a == x) = true
      · have hax : a = x := by simpa using h2
        subst hax
        have hkx : (k == a) = false := by
          refine beq_eq_false_iff_ne.mpr ?_
          intro hk
          exact h1 (by simp [hk])
        simp [mapSet, mapGet, h1', h2, hkx]
      · have h2' : (a == x) = false := by simpa using h2
        simp [mapSet, mapGet, h1', h2', ih]

/-- The write `mapSet` only ever adds the written key. -/
theorem mem_keys_mapSet (m : List (String × Int)) (k x : String) (v : Int) :
    x ∈ (mapSet m k v).map Prod.fst ↔ x ∈ m.map Prod.fst ∨ x = k := by
  induction m with
  | nil => simp [mapSet]
  | cons hd tl ih =>
    obtain ⟨a, w⟩ := hd
    by_cases h1 : (a == k) = true
    · have ha : a = k := by simpa using h1
      subst ha
      simp [mapSet]
      tauto
    · have h1' : (a == k) = false := by simpa using h1
      simp [mapSet, h1', ih]
      tauto

/-- The write `mapSet` keeps the key list duplicate-free. -/
theorem mapSet_keys_nodup (m : List (String × Int)) (k : String) (v : Int)
    (h : (m.map Prod.fst).Nodup) : ((mapSet m k v).map Prod.fst).Nodup := by
  induction m with
  | nil => simp [mapSet]
  | cons hd tl ih =>
    obtain ⟨a, w⟩ := hd
    simp only [List.map_cons, List.nodup_cons] at h
    obtain ⟨hna, hnd⟩ := h
    by_cases h1 : (a == k) = true
    · have ha : a = k := by simpa using h1
      subst ha
      simp only [mapSet, beq_self_eq_true, if_true, List.map_cons, List.nodup_cons]
      exact ⟨hna, hnd⟩
    · have h1' : (a == k) = false := by simpa using h1
      have hak : a ≠ k := by simpa using h1
      simp only [mapSet, h1', Bool.false_eq_true, if_false, List.map_cons,
        List.nodup_cons]
      refine ⟨?_, ih hnd⟩
      intro hmem
      rcases (mem_keys_mapSet tl k a v).mp hmem with hm | he
      · exact hna hm
      · exact hak he

/-- The merge loop keeps the key list duplicate-free. -/
theorem mergeQtyAux_keys_nodup (items : List ReqItem) (m : List (String × Int))
    (h : (m.map Prod.fst).Nodup) : ((mergeQtyAux m items).map Prod.fst).Nodup := by
  induction items generalizing m with
  | nil => simpa [mergeQtyAux] using h
  | cons item rest ih =>
    simp only [mergeQtyAux]
    exact ih _ (mapSet_keys_nodup _ _ _ h)

/-- The merged request map has pairwise distinct product ids. -/
theorem requestedQty_keys_nodup (items : List ReqItem) :
    ((requestedQtyByProduct items).map Prod.fst).Nodup :=
  mergeQtyAux_keys_nodup items [] (by simp)

/-- A key reads as `none` exactly when it is not in the map. -/
theorem mapGet_eq_none_iff (m : List (String × Int)) (x : String) :
    mapGet m x = none ↔ x ∉ m.map Prod.fst := by
  induction m with
  | nil => simp [mapGet]
  | cons hd tl ih =>
    obtain ⟨a, w⟩ := hd
    by_cases h : (a == x) = true
    · have ha : a = x := by simpa using h
      subst ha
      simp [mapGet, h]
    · have h' : (a == x) = false := by simpa using h
      have hne : a ≠ x := by simpa using h
      simp only [mapGet, h', Bool.false_eq_true, if_false, List.map_cons,
        List.mem_cons]
      rw [ih]
      constructor
      · rintro hx (hc | hc)
        · exact hne hc.symm
        · exact hx hc
      · intro hx
        exact fun hc => hx (Or.inr hc)

/-- On a duplicate-free map, every entry is found by `mapGet`. -/
theorem mapGet_of_mem_nodup (m : List (String × Int)) (pid : String) (q : Int)
    (hnd : (m.map Prod.fst).Nodup) (hmem : (pid, q) ∈ m) :
    mapGet m pid = some q := by
  induction m with
  | nil => simp at hmem
  | cons hd tl ih =>
    obtain ⟨a, w⟩ := hd
    simp only [List.map_cons, List.nodup_cons] at hnd
    obtain ⟨hna, hnd'⟩ := hnd
    rcases List.mem_cons.mp hmem with he | hm
    · injection he with h1 h2
      subst h1
      subst h2
      simp [mapGet]
    · by_cases h : (a == pid) = true
      · have ha : a = pid := by simpa using h
        subst ha
        exact absurd (List.mem_map.mpr ⟨(a, q), hm, rfl⟩) hna
      · have h' : (a == pid) = false := by simpa using h
        simp [mapGet, h', ih hnd' hm]

/-- Every `mapGet` hit is an entry of the map. -/
theorem mapGet_some_mem (m : List (String × Int)) (pid : String) (q : Int)
    (h : mapGet m pid = some q) : (pid, q) ∈ m := by
  induction m with
  | nil => simp [mapGet] at h
  | cons hd tl ih =>
    obtain ⟨a, w⟩ := hd
    by_cases hh : (a == pid) = true
    · have ha : a = pid := by simpa using hh
      subst ha
      simp only [mapGet, hh, if_true, Option.some.injEq] at h
      subst h
      exact List.mem_cons_self _ _
    · have h' : (a == pid) = false := by simpa using hh
      simp only [mapGet, h', Bool.false_eq_true, if_false] at h
      exact List.mem_cons_of_mem _ (ih h)

/-- Characterization of the merge loop: a key's merged value is its value in
the accumulator plus the summed quantities of the matching request items. -/
theorem mapGet_mergeQtyAux (items : List ReqItem) (m : List (String × Int))
    (pid : String) :
    mapGet (mergeQtyAux m items) pid =
      match mapGet m pid with
      | some q => some (q + sumQty items pid)
      | none =>
        if items.any (fun item => item.product == pid) then some (sumQty items pid)
        else none := by
  induction items generalizing m with
  | nil =>
    cases h : mapGet m pid <;> simp [mergeQtyAux, sumQty, h]
  | cons item rest ih =>
    simp only [mergeQtyAux]
    rw [ih]
    rw [mapGet_mapSet]
    by_cases hp : (item.product == pid) = true
    · have hpe : item.product = pid := by simpa using hp
      rw [if_pos hp]
      cases hm : mapGet m pid with
      | some q =>
        rw [hpe, hm]
        simp only [Option.getD_some]
        have hsum : sumQty (item :: rest) pid = item.quantity + sumQty rest pid := by
          simp [sumQty, List.filter_cons, hp]
        rw [hsum]
        congr 1
        omega
      | none =>
        rw [hpe, hm]
        simp only [Option.getD_none]
        have hsum : sumQty (item :: rest) pid = item.quantity + sumQty rest pid := by
          simp [sumQty, List.filter_cons, hp]
        simp only [List.any_cons, hp, Bool.true_or, if_true]
        rw [hsum]
        congr 1
        omega
    · have hp' : (item.product == pid) = false := by simpa using hp
      rw [if_neg (by simp [hp'])]
      have hsum : sumQty (item :: rest) pid = sumQty rest pid := by
        simp [sumQty, List.filter_cons, hp']
      simp only [List.any_cons, hp', Bool.false_or, hsum]

/-- One decrement step never changes a product's id. -/
theorem decMap_id (p : Product) (pid : String) (q : Int) :
    (if p.id == pid then { p with stock := p.stock - q } else p).id = p.id := by
  by_cases h : (p.id == pid) = true <;> simp [h]

/-- One decrement step writes `stock - q` at the decremented id and keeps
every other stock. -/
theorem decMap_stock (p : Product) (pid : String) (q : Int) :
    (if p.id == pid then { p with stock := p.stock - q } else p).stock =
      if p.id == pid then p.stock - q else p.stock := by
  by_cases h : (p.id == pid) = true <;> simp [h]

/-- The decrement step never changes the list of product ids. -/
theorem ids_decMap (ps : List Product) (pid : String) (q : Int) :
    (ps.map (fun p =>
      if p.id == pid then { p with stock := p.stock - q } else p)).map
        (fun p => p.id) = ps.map (fun p => p.id) := by
  induction ps with
  | nil => rfl
  | cons p rest ih =>
    simp only [List.map_cons, decMap_id, ih]

/-- Lookup commutes with the decrement step, because the lookup predicate
only reads the (preserved) id. -/
theorem findProduct_decMap (ps : List Product) (pid x : String) (q : Int) :
    findProduct (ps.map (fun p =>
      if p.id == pid then { p with stock := p.stock - q } else p)) x =
    (findProduct ps x).map (fun p =>
      if p.id == pid then { p with stock := p.stock - q } else p) := by
  induction ps with
  | nil => rfl
  | cons p rest ih =>
    by_cases h : (p.id == x) = true
    · have hfp : ((if p.id == pid then { p with stock := p.stock - q } else p).id == x)
          = true := by
        rw [decMap_id]
        exact h
      simp only [findProduct, List.map_cons, List.find?_cons, hfp, h, Option.map_some]
      rfl
    · have h' : (p.id == x) = false := by simpa using h
      have hfp : ((if p.id == pid then { p with stock := p.stock - q } else p).id == x)
          = false := by
        rw [decMap_id]
        exact h'
      simp only [findProduct, List.map_cons, List.find?_cons, hfp, h']
      exact ih

/-- Reading a stock after one decrement step: the decremented id reads lower
by the quantity, every other id is untouched. -/
theorem stockOf_decMap (ps : List Product) (pid x : String) (q : Int) :
    stockOf (ps.map (fun p =>
      if p.id == pid then { p with stock := p.stock - q } else p)) x =
    if pid == x then (stockOf ps x).map (fun s => s - q) else stockOf ps x := by
  rw [stockOf, findProduct_decMap]
  cases hf : findProduct ps x with
  | none =>
    by_cases h : (pid == x) = true <;> simp [stockOf, hf, h]
  | some p =>
    have hfind : ps.find? (fun w => w.id == x) = some p := by
      simpa [findProduct] using hf
    have hpx : (p.id == x) = true :=
      List.find?_some (p := fun (w : Product) => w.id == x) hfind
    have hpxe : p.id = x := by simpa using hpx
    by_cases h : (pid == x) = true
    · have hxe : pid = x := by simpa using h
      have hppid : p.id = pid := by
        rw [hpxe, hxe]
      simp [stockOf, hf, h, hppid, decMap_stock]
    · have hx : pid ≠ x := by simpa using h
      have hppid : p.id ≠ pid := by
        rw [hpxe]
        exact fun hh => hx hh.symm
      simp [stockOf, hf, h, hppid, decMap_stock]

/-- On a duplicate-free product list, a member's stock is read back as is. -/
theorem stockOf_of_mem_nodup (ps : List Product) (p : Product)
    (hnd : (ps.map (fun w => w.id)).Nodup) (hmem : p ∈ ps) :
    stockOf ps p.id = some p.stock := by
  induction ps with
  | nil => simp at hmem
  | cons a rest ih =>
    simp only [List.map_cons, List.nodup_cons] at hnd
    obtain ⟨hna, hnd'⟩ := hnd
    rcases List.mem_cons.mp hmem with he | hm
    · subst he
      simp [stockOf, findProduct]
    · by_cases h : (a.id == p.id) = true
      · have ha : a.id = p.id := by simpa using h
        exact absurd (List.mem_map.mpr ⟨p, hm, ha.symm⟩) hna
      · have h' : (a.id == p.id) = false := by simpa using h
        simp only [stockOf, findProduct, List.find?_cons, h', Bool.false_eq_true]
        simpa [stockOf, findProduct, h'] using ih hnd' hm

/-- Two members of a duplicate-free product list with the same id coincide. -/
theorem eq_of_mem_ids_nodup (ps : List Product) (p1 p2 : Product)
    (hnd : (ps.map (fun w => w.id)).Nodup) (h1 : p1 ∈ ps) (h2 : p2 ∈ ps)
    (hid : p1.id = p2.id) : p1 = p2 :=
  List.inj_on_of_nodup_map hnd h1 h2 hid

/-- Every decrement is guarded by the stock check, so a successful pass keeps
all stocks non-negative. -/
theorem decrementAll_nonneg (snapshot : List Product) (l : List (String × Int))
    (current out : List Product)
    (hnd : (current.map (fun p => p.id)).Nodup)
    (h : decrementAll snapshot current l = .ok out)
    (hpos : ∀ p ∈ current, 0 ≤ p.stock) :
    ∀ p ∈ out, 0 ≤ p.stock := by
  induction l generalizing current with
  | nil =>
    simp only [decrementAll] at h
    cases h
    exact hpos
  | cons e rest ih =>
    obtain ⟨pid, q⟩ := e
    simp only [decrementAll] at h
    cases hf : findProduct snapshot pid with
    | none => rw [hf] at h; cases h
    | some sp =>
      rw [hf] at h
      cases hc : current.find? (fun p => p.id == pid && decide (q ≤ p.stock)) with
      | none => rw [hc] at h; cases h
      | some p0 =>
        rw [hc] at h
        have hp0pred := List.find?_some
          (p := fun (p : Product) => p.id == pid && decide (q ≤ p.stock)) hc
        have hp0mem := List.mem_of_find?_eq_some
          (p := fun (p : Product) => p.id == pid && decide (q ≤ p.stock)) hc
        rw [Bool.and_eq_true] at hp0pred
        obtain ⟨hp0id, hp0le⟩ := hp0pred
        have hp0id' : p0.id = pid := by simpa using hp0id
        have hp0le' : q ≤ p0.stock := by simpa using hp0le
        refine ih _ ?_ h ?_
        · rw [ids_decMap]
          exact hnd
        · intro p' hp'
          obtain ⟨p, hpmem, hpeq⟩ := List.mem_map.mp hp'
          subst hpeq
          rw [decMap_stock]
          by_cases hid : (p.id == pid) = true
          · rw [if_pos hid]
            have hide : p.id = pid := by simpa using hid
            have hpp0 : p = p0 :=
              eq_of_mem_ids_nodup current p p0 hnd hpmem hp0mem
                (hide.trans hp0id'.symm)
            subst hpp0
            omega
          · rw [if_neg hid]
            exact hpos p hpmem

/-- A successful decrement pass subtracts exactly the merged quantity at each
requested id and leaves every other stock unchanged. -/
theorem decrementAll_ok_stocks (snapshot : List Product) (l : List (String × Int))
    (current out : List Product)
    (hlnd : (l.map Prod.fst).Nodup)
    (h : decrementAll snapshot current l = .ok out) :
    ∀ pid, stockOf out pid =
      match mapGet l pid with
      | some q => (stockOf current pid).map (fun s => s - q)
      | none => stockOf current pid := by
  induction l generalizing current with
  | nil =>
    simp only [decrementAll] at h
    cases h
    intro pid
    simp [mapGet]
  | cons e rest ih =>
    obtain ⟨pid0, q0⟩ := e
    simp only [decrementAll] at h
    cases hf : findProduct snapshot pid0 with
    | none => rw [hf] at h; cases h
    | some sp =>
      rw [hf] at h
      cases hc : current.find? (fun p => p.id == pid0 && decide (q0 ≤ p.stock)) with
      | none => rw [hc] at h; cases h
      | some p0 =>
        rw [hc] at h
        simp only [List.map_cons, List.nodup_cons] at hlnd
        obtain ⟨hnotin, hlnd'⟩ := hlnd
        intro pid
        have hrest := ih _ hlnd' h pid
        by_cases hpp : pid0 = pid
        · subst hpp
          have hnone : mapGet rest pid0 = none := (mapGet_eq_none_iff _ _).mpr hnotin
          rw [hnone] at hrest
          rw [hrest, stockOf_decMap]
          simp [mapGet]
        · have hpp' : (pid0 == pid) = false := beq_eq_false_iff_ne.mpr hpp
          have hmg : mapGet ((pid0, q0) :: rest) pid = mapGet rest pid := by
            simp [mapGet, hpp']
          rw [hmg]
          rw [stockOf_decMap, if_neg (by simp [hpp'])] at hrest
          exact hrest

/-- On a successful decrement pass, every merged quantity was at most the
stock it was checked against. -/
theorem decrementAll_ok_sufficient (snapshot : List Product)
    (l : List (String × Int)) (current out : List Product)
    (hlnd : (l.map Prod.fst).Nodup)
    (hnd : (current.map (fun p => p.id)).Nodup)
    (h : decrementAll snapshot current l = .ok out) :
    ∀ pid q, mapGet l pid = some q →
      ∃ s0, stockOf current pid = some s0 ∧ q ≤ s0 := by
  induction l generalizing current with
  | nil =>
    intro pid q hpq
    simp [mapGet] at hpq
  | cons e rest ih =>
    obtain ⟨pid0, q0⟩ := e
    simp only [decrementAll] at h
    cases hf : findProduct snapshot pid0 with
    | none => rw [hf] at h; cases h
    | some sp =>
      rw [hf] at h
      cases hc : current.find? (fun p => p.id == pid0 && decide (q0 ≤ p.stock)) with
      | none => rw [hc] at h; cases h
      | some p0 =>
        rw [hc] at h
        have hp0pred := List.find?_some
          (p := fun (p : Product) => p.id == pid0 && decide (q0 ≤ p.stock)) hc
        have hp0mem := List.mem_of_find?_eq_some
          (p := fun (p : Product) => p.id == pid0 && decide (q0 ≤ p.stock)) hc
        rw [Bool.and_eq_true] at hp0pred
        obtain ⟨hp0id, hp0le⟩ := hp0pred
        have hp0id' : p0.id = pid0 := by simpa using hp0id
        have hp0le' : q0 ≤ p0.stock := by simpa using hp0le
        simp only [List.map_cons, List.nodup_cons] at hlnd
        obtain ⟨hnotin, hlnd'⟩ := hlnd
        intro pid q hpq
        by_cases hpp : (pid0 == pid) = true
        · have hpp1 : pid0 = pid := by simpa using hpp
          subst hpp1
          have hq : q0 = q := by simpa [mapGet] using hpq
          subst hq
          refine ⟨p0.stock, ?_, hp0le'⟩
          have hst := stockOf_of_mem_nodup current p0 hnd hp0mem
          rw [hp0id'] at hst
          exact hst
        · have hpp' : (pid0 == pid) = false := by simpa using hpp
          have hpq' : mapGet rest pid = some q := by
            simpa [mapGet, hpp'] using hpq
          have hnd' : ((current.map (fun p =>
              if p.id == pid0 then { p with stock := p.stock - q0 } else p)).map
                (fun p => p.id)).Nodup := by
            rw [ids_decMap]
            exact hnd
          obtain ⟨s0, hs0, hqs⟩ := ih _ hlnd' hnd' h pid q hpq'
          rw [stockOf_decMap, if_neg (by simp [hpp'])] at hs0
          exact ⟨s0, hs0, hqs⟩

/-- When every requested id exists in the snapshot but some requested
quantity exceeds its current stock, the decrement pass reports a conflict. -/
theorem decrementAll_conflict (snapshot : List Product) (l : List (String × Int))
    (current : List Product)
    (hlnd : (l.map Prod.fst).Nodup)
    (hnd : (current.map (fun p => p.id)).Nodup)
    (hex : ∀ pq ∈ l, (findProduct snapshot pq.1).isSome = true)
    (hins : ∃ pq ∈ l, ∃ s0, stockOf current pq.1 = some s0 ∧ s0 < pq.2) :
    decrementAll snapshot current l = .error .conflict := by
  induction l generalizing current with
  | nil => simp at hins
  | cons e rest ih =>
    obtain ⟨pid0, q0⟩ := e
    have hx0 : (findProduct snapshot pid0).isSome = true :=
      hex (pid0, q0) (List.mem_cons_self _ _)
    obtain ⟨sp, hsp⟩ := Option.isSome_iff_exists.mp hx0
    simp only [decrementAll]
    rw [hsp]
    cases hc : current.find? (fun p => p.id == pid0 && decide (q0 ≤ p.stock)) with
    | none => rfl
    | some p0 =>
      have hp0pred := List.find?_some
        (p := fun (p : Product) => p.id == pid0 && decide (q0 ≤ p.stock)) hc
      have hp0mem := List.mem_of_find?_eq_some
        (p := fun (p : Product) => p.id == pid0 && decide (q0 ≤ p.stock)) hc
      rw [Bool.and_eq_true] at hp0pred
      obtain ⟨hp0id, hp0le⟩ := hp0pred
      have hp0id' : p0.id = pid0 := by simpa using hp0id
      have hp0le' : q0 ≤ p0.stock := by simpa using hp0le
      simp only [List.map_cons, List.nodup_cons] at hlnd
      obtain ⟨hnotin, hlnd'⟩ := hlnd
      obtain ⟨pq, hpqmem, s0, hs0, hlt⟩ := hins
      rcases List.mem_cons.mp hpqmem with he | hm
      · exfalso
        subst he
        have hst := stockOf_of_mem_nodup current p0 hnd hp0mem
        rw [hp0id'] at hst
        rw [hst] at hs0
        have hps : p0.stock = s0 := by
          injection hs0
        simp only at hlt
        omega
      · refine ih _ hlnd' ?_ ?_ ?_
        · rw [ids_decMap]
          exact hnd
        · intro pq2 hpq2
          exact hex pq2 (List.mem_cons_of_mem _ hpq2)
        · refine ⟨pq, hm, s0, ?_, hlt⟩
          have hne : pid0 ≠ pq.1 := by
            intro hcontra
            exact hnotin (List.mem_map.mpr ⟨pq, hm, hcontra.symm⟩)
          rw [stockOf_decMap, if_neg (by simp [hne])]
          exact hs0

/-- The running total of the pricing loop equals the snapshot-price-weighted
sum of the built order lines. -/
theorem buildOrderLines_total (ps : List Product) (items : List ReqItem)
    (lines : List OrderItem) (total : Rat)
    (h : buildOrderLines ps items = some (lines, total)) :
    total = (lines.map (fun l => l.price * (l.quantity : Rat))).sum := by
  induction items generalizing lines total with
  | nil =>
    simp only [buildOrderLines, Option.some.injEq, Prod.mk.injEq] at h
    obtain ⟨h1, h2⟩ := h
    subst h1
    subst h2
    simp
  | cons item rest ih =>
    simp only [buildOrderLines] at h
    cases hf : findProduct ps item.product with
    | none => rw [hf] at h; cases h
    | some product =>
      rw [hf] at h
      cases hb : buildOrderLines ps rest with
      | none => rw [hb] at h; cases h
      | some pr =>
        obtain ⟨lines0, total0⟩ := pr
        rw [hb] at h
        simp only [Option.some.injEq, Prod.mk.injEq] at h
        obtain ⟨h1, h2⟩ := h
        subst h1
        subst h2
        simp [List.sum_cons, ih lines0 total0 hb]

/-- C1: a committed `createOrder` decrements each product exactly by its
merged requested quantity, and only under the guard that the stock covered
it; with all referenced products present and some stock short, the call
returns Conflict with the state unchanged; committed stocks stay
non-negative. -/
theorem createOrder_stock_safety (s : StoreState) (userId orderId addr : String)
    (items : List ReqItem)
    (hids : (s.products.map (fun p => p.id)).Nodup)
    (hnonneg : ∀ p ∈ s.products, 0 ≤ p.stock) :
    (∀ ord s2, createOrder s userId orderId items addr = (.created ord, s2) →
       (∀ p ∈ s2.products, 0 ≤ p.stock) ∧
       (∀ p ∈ s.products, ∀ q,
          mapGet (requestedQtyByProduct items) p.id = some q →
            q ≤ p.stock ∧ stockOf s2.products p.id = some (p.stock - q)) ∧
       (∀ p ∈ s.products,
          mapGet (requestedQtyByProduct items) p.id = none →
            stockOf s2.products p.id = some p.stock))
    ∧ ((∀ pq ∈ requestedQtyByProduct items,
          (findProduct s.products pq.1).isSome = true) →
       (∃ pq ∈ requestedQtyByProduct items, ∃ p ∈ s.products,
          p.id = pq.1 ∧ p.stock < pq.2) →
       createOrder s userId orderId items addr = (.conflict, s)) := by
  constructor
  · intro ord s2 h
    unfold createOrder at h
    cases hdec : decrementAll s.products s.products (requestedQtyByProduct items) with
    | error e =>
      rw [hdec] at h
      cases e <;> simp at h
    | ok products2 =>
      rw [hdec] at h
      cases hb : buildOrderLines s.products items with
      | none => rw [hb] at h; simp at h
      | some pr =>
        obtain ⟨lines, total⟩ := pr
        rw [hb] at h
        simp only [Prod.mk.injEq, PlaceOrderResult.created.injEq] at h
        obtain ⟨hord, hs2⟩ := h
        subst hs2
        refine ⟨?_, ?_, ?_⟩
        · exact decrementAll_nonneg _ _ _ _ hids hdec hnonneg
        · intro p hp q hq
          constructor
          · obtain ⟨s0, hs0, hqs⟩ := decrementAll_ok_sufficient _ _ _ _
              (requestedQty_keys_nodup items) hids hdec p.id q hq
            have hst := stockOf_of_mem_nodup s.products p hids hp
            rw [hst] at hs0
            injection hs0 with hs0e
            omega
          · have hstk := decrementAll_ok_stocks _ _ _ _
              (requestedQty_keys_nodup items) hdec p.id
            rw [hq] at hstk
            have hst := stockOf_of_mem_nodup s.products p hids hp
            rw [hst] at hstk
            simpa using hstk
        · intro p hp hq
          have hstk := decrementAll_ok_stocks _ _ _ _
            (requestedQty_keys_nodup items) hdec p.id
          rw [hq] at hstk
          have hst := stockOf_of_mem_nodup s.products p hids hp
          rw [hst] at hstk
          exact hstk
  · intro hall hins
    obtain ⟨pq, hm, p, hpmem, hpid, hlt⟩ := hins
    have hconf : decrementAll s.products s.products (requestedQtyByProduct items) =
        .error .conflict := by
      refine decrementAll_conflict _ _ _ (requestedQty_keys_nodup items) hids hall ?_
      refine ⟨pq, hm, p.stock, ?_, hlt⟩
      have hst := stockOf_of_mem_nodup s.products p hids hpmem
      rw [hpid] at hst
      exact hst
    unfold createOrder
    rw [hconf]

/-- Witness for C1: one unit short of the merged request yields Conflict
with the state unchanged. -/
theorem createOrder_stock_safety_witness :
    createOrder ⟨[⟨"p1", 10, 4, "v1", "v1"⟩], []⟩ "u1" "o1"
        [⟨"p1", 2⟩, ⟨"p1", 3⟩] "addr" =
      (.conflict, ⟨[⟨"p1", 10, 4, "v1", "v1"⟩], []⟩) :=
  (createOrder_stock_safety ⟨[⟨"p1", 10, 4, "v1", "v1"⟩], []⟩ "u1" "o1" "addr"
    [⟨"p1", 2⟩, ⟨"p1", 3⟩] (by decide) (by decide)).2 (by decide) (by decide)

/-- C2: a `createOrder` attempt that ends in Conflict or NotFound leaves the
whole store (product stocks and orders) exactly as before. -/
theorem createOrder_rollback (s : StoreState) (userId orderId addr : String)
    (items : List ReqItem)
    (h : (createOrder s userId orderId items addr).1 = .conflict ∨
         (createOrder s userId orderId items addr).1 = .notFound) :
    (createOrder s userId orderId items addr).2 = s := by
  unfold createOrder at h ⊢
  cases hdec : decrementAll s.products s.products (requestedQtyByProduct items) with
  | error e =>
    cases e <;> rfl
  | ok products2 =>
    rw [hdec] at h
    cases hb : buildOrderLines s.products items with
    | none => rfl
    | some pr =>
      obtain ⟨lines, total⟩ := pr
      rw [hb] at h
      simp at h

/-- Witness for C2 at a concrete conflicting attempt. -/
theorem createOrder_rollback_witness :
    (createOrder ⟨[⟨"p1", 10, 1, "v1", "v1"⟩], []⟩ "u1" "o1"
        [⟨"p1", 2⟩] "addr").2 = ⟨[⟨"p1", 10, 1, "v1", "v1"⟩], []⟩ :=
  createOrder_rollback ⟨[⟨"p1", 10, 1, "v1", "v1"⟩], []⟩ "u1" "o1" "addr"
    [⟨"p1", 2⟩] (Or.inl (by decide))

/-- C3: line items are merged by product id with duplicate quantities summed,
and the merged total is what the stock check and decrement use: quantities
2 and 3 for one product act as a single request for 5, succeeding against
stock 5 (leaving 0) and conflicting against stock 4. -/
theorem requestedQty_spec :
    (∀ (items : List ReqItem) (pid : String),
       mapGet (requestedQtyByProduct items) pid =
         if items.any (fun item => item.product == pid) then some (sumQty items pid)
         else none)
    ∧ mapGet (requestedQtyByProduct [⟨"p1", 2⟩, ⟨"p1", 3⟩]) "p1" = some 5
    ∧ stockOf (createOrder ⟨[⟨"p1", 10, 5, "v1", "v1"⟩], []⟩ "u1" "o1"
        [⟨"p1", 2⟩, ⟨"p1", 3⟩] "addr").2.products "p1" = some 0
    ∧ (createOrder ⟨[⟨"p1", 10, 5, "v1", "v1"⟩], []⟩ "u1" "o1"
        [⟨"p1", 2⟩, ⟨"p1", 3⟩] "addr").1 ≠ .conflict
    ∧ createOrder ⟨[⟨"p1", 10, 4, "v1", "v1"⟩], []⟩ "u1" "o1"
        [⟨"p1", 2⟩, ⟨"p1", 3⟩] "addr" =
      (.conflict, ⟨[⟨"p1", 10, 4, "v1", "v1"⟩], []⟩) := by
  refine ⟨?_, by decide, by decide, by decide, by decide⟩
  intro items pid
  have h := mapGet_mergeQtyAux items [] pid
  simpa [requestedQtyByProduct, mapGet] using h

/-- C4: a committed order's `totalAmount` is the sum of quantity times
unit-price snapshot over its line items, and a product update never touches
the stored orders, so snapshots and totals survive later price edits. -/
theorem order_total_snapshot (s : StoreState) (userId orderId addr : String)
    (items : List ReqItem) (table : RoleTable) (user : Actor) (pid : String)
    (body : ProductPatch) :
    (∀ ord s2, createOrder s userId orderId items addr = (.created ord, s2) →
       ord.totalAmount =
         (ord.products.map (fun l => l.price * (l.quantity : Rat))).sum)
    ∧ (∀ res s2, updateProduct table s user pid body = (res, s2) →
        s2.orders = s.orders) := by
  constructor
  · intro ord s2 h
    unfold createOrder at h
    cases hdec : decrementAll s.products s.products (requestedQtyByProduct items) with
    | error e =>
      rw [hdec] at h
      cases e <;> simp at h
    | ok products2 =>
      rw [hdec] at h
      cases hb : buildOrderLines s.products items with
      | none => rw [hb] at h; simp at h
      | some pr =>
        obtain ⟨lines, total⟩ := pr
        rw [hb] at h
        simp only [Prod.mk.injEq, PlaceOrderResult.created.injEq] at h
        obtain ⟨hord, hs2⟩ := h
        rw [← hord]
        exact buildOrderLines_total s.products items lines total hb
  · intro res s2 h
    unfold updateProduct at h
    split at h
    · simp only [Prod.mk.injEq] at h
      obtain ⟨-, hs2⟩ := h
      rw [← hs2]
    · dsimp only at h
      split at h
      · simp only [Prod.mk.injEq] at h
        obtain ⟨-, hs2⟩ := h
        rw [← hs2]
      · simp only [Prod.mk.injEq] at h
        obtain ⟨-, hs2⟩ := h
        rw [← hs2]

/-- Witness for C4: the committed two-line order totals 2·10 + 3·10, and a
later price edit to 99 leaves the stored orders untouched. -/
theorem order_total_snapshot_witness :
    (⟨"o1", "u1", [⟨"p1", 2, 10⟩, ⟨"p1", 3, 10⟩],
        (10 : Rat) * ((2 : Int) : Rat) + ((10 : Rat) * ((3 : Int) : Rat) + (0 : Rat)),
        "addr", "pending"⟩ : OrderRec).totalAmount =
      (((⟨"o1", "u1", [⟨"p1", 2, 10⟩, ⟨"p1", 3, 10⟩],
        (10 : Rat) * ((2 : Int) : Rat) + ((10 : Rat) * ((3 : Int) : Rat) + (0 : Rat)),
        "addr", "pending"⟩ :
        OrderRec)).products.map (fun l => l.price * (l.quantity : Rat))).sum ∧
    (updateProduct demoTable
        ⟨[⟨"p1", 10, 0, "v1", "v1"⟩],
         [⟨"o1", "u1", [⟨"p1", 2, 10⟩, ⟨"p1", 3, 10⟩], 50, "addr", "pending"⟩]⟩
        ⟨"a9", "admin"⟩ "p1" ⟨some 99, none, none⟩).2.orders =
      (⟨[⟨"p1", 10, 0, "v1", "v1"⟩],
        [⟨"o1", "u1", [⟨"p1", 2, 10⟩, ⟨"p1", 3, 10⟩], 50, "addr", "pending"⟩]⟩ :
        StoreState).orders :=
  ⟨(order_total_snapshot ⟨[⟨"p1", 10, 5, "v1", "v1"⟩], []⟩ "u1" "o1" "addr"
      [⟨"p1", 2⟩, ⟨"p1", 3⟩] demoTable ⟨"a9", "admin"⟩ "p1" ⟨some 99, none, none⟩).1
      ⟨"o1", "u1", [⟨"p1", 2, 10⟩, ⟨"p1", 3, 10⟩],
        (10 : Rat) * ((2 : Int) : Rat) + ((10 : Rat) * ((3 : Int) : Rat) + (0 : Rat)),
        "addr", "pending"⟩
      ⟨[⟨"p1", 10, 0, "v1", "v1"⟩],
       [⟨"o1", "u1", [⟨"p1", 2, 10⟩, ⟨"p1", 3, 10⟩],
         (10 : Rat) * ((2 : Int) : Rat) + ((10 : Rat) * ((3 : Int) : Rat) + (0 : Rat)),
         "addr", "pending"⟩]⟩
      rfl,
   (order_total_snapshot
      ⟨[⟨"p1", 10, 0, "v1", "v1"⟩],
       [⟨"o1", "u1", [⟨"p1", 2, 10⟩, ⟨"p1", 3, 10⟩], 50, "addr", "pending"⟩]⟩
      "u1" "o1" "addr" [⟨"p1", 2⟩, ⟨"p1", 3⟩] demoTable ⟨"a9", "admin"⟩ "p1"
      ⟨some 99, none, none⟩).2
      (updateProduct demoTable
        ⟨[⟨"p1", 10, 0, "v1", "v1"⟩],
         [⟨"o1", "u1", [⟨"p1", 2, 10⟩, ⟨"p1", 3, 10⟩], 50, "addr", "pending"⟩]⟩
        ⟨"a9", "admin"⟩ "p1" ⟨some 99, none, none⟩).1
      (updateProduct demoTable
        ⟨[⟨"p1", 10, 0, "v1", "v1"⟩],
         [⟨"o1", "u1", [⟨"p1", 2, 10⟩, ⟨"p1", 3, 10⟩], 50, "addr", "pending"⟩]⟩
        ⟨"a9", "admin"⟩ "p1" ⟨some 99, none, none⟩).2 rfl⟩

/-- C9: an invalid status value yields InvalidInput; a "delivery" actor
requesting anything but "delivered" is Forbidden regardless of the order's
state; a "delivery" actor requesting "delivered" on an existing order
succeeds with resulting status "delivered". -/
theorem updateOrderStatus_spec (orders : List OrderRec)
    (role orderId status : String) :
    (validStatuses.contains status = false →
       updateOrderStatus orders role orderId status = (.invalidStatus, orders))
    ∧ (validStatuses.contains status = true → role = "delivery" →
       status ≠ "delivered" →
       updateOrderStatus orders role orderId status = (.forbiddenDelivery, orders))
    ∧ (∀ o, role = "delivery" → status = "delivered" →
        orders.find? (fun w => w.id == orderId) = some o →
        ∃ o2, (updateOrderStatus orders role orderId status).1 = .updated o2 ∧
          o2.status = "delivered") := by
  refine ⟨?_, ?_, ?_⟩
  · intro h
    unfold updateOrderStatus
    rw [if_pos h]
  · intro hv hr hs
    subst hr
    unfold updateOrderStatus
    rw [if_neg (by rw [hv]; simp)]
    rw [if_pos (by simp [bne, hs])]
  · intro o hr hs hfind
    subst hr
    subst hs
    unfold updateOrderStatus
    rw [if_neg (by decide), if_neg (by decide), hfind]
    exact ⟨_, rfl, rfl⟩

/-- Witness for C9: the three scenario instances at concrete inputs. -/
theorem updateOrderStatus_spec_witness :
    updateOrderStatus [] "user" "o1" "bogus" = (.invalidStatus, []) ∧
    updateOrderStatus [] "delivery" "o1" "shipped" = (.forbiddenDelivery, []) ∧
    ∃ o2, (updateOrderStatus [⟨"o1", "u1", [], 0, "addr", "pending"⟩]
        "delivery" "o1" "delivered").1 = .updated o2 ∧ o2.status = "delivered" :=
  ⟨(updateOrderStatus_spec [] "user" "o1" "bogus").1 (by decide),
   (updateOrderStatus_spec [] "delivery" "o1" "shipped").2.1 (by decide) rfl
     (by decide),
   (updateOrderStatus_spec [⟨"o1", "u1", [], 0, "addr", "pending"⟩]
     "delivery" "o1" "delivered").2.2 ⟨"o1", "u1", [], 0, "addr", "pending"⟩
     rfl rfl (by decide)⟩

end ECom
